import Mathlib

/-!
Shallow embedding of the planning-poker room engine
(`internal/engine/engine.go` together with the data model of
`internal/models/models.go`).

Modelling conventions:
* Go maps are embedded as association lists; `insertA` models `m[k] = v`
  (replace any existing binding), `eraseA` models `delete(m, k)`,
  `lookupA` models `v, ok := m[k]`.  Go's randomized iteration order is
  fixed to list order, a deterministic refinement.
* `uuid.UUID` values are embedded as `Nat`; `uuid.New()` (used only by
  `CreateRoom`) is embedded as a fresh-counter draw (`nextId`), which
  captures the freshness the code relies on.
* `time.Time` fields (`LastAccess`) and the operations that only touch
  them (`GetServer`'s timestamp update, `CleanupOldRooms`) are outside
  the embedding: no claim mentions them.
* Go errors are embedded as an inductive `EngError`, one constructor per
  `errors.New` site in the source; `EngError.kind` maps each to the
  spec's error taxonomy (InvalidInput / NotFound / Forbidden / Locked).
-/

namespace PlanningPoker

/-! ## Association-list primitives standing in for Go maps -/

/-- Go map read `v, ok := m[k]`. -/
def lookupA {κ α : Type} [DecidableEq κ] (k : κ) : List (κ × α) → Option α
  | [] => none
  | (k', v) :: rest => if k' = k then some v else lookupA k rest

/-- Go `delete(m, k)`: removes every binding of `k`. -/
def eraseA {κ α : Type} [DecidableEq κ] (k : κ) (m : List (κ × α)) : List (κ × α) :=
  m.filter (fun kv => decide (kv.1 ≠ k))

/-- Go map write `m[k] = v`: binds `k` to `v`, replacing any previous binding. -/
def insertA {κ α : Type} [DecidableEq κ] (k : κ) (v : α) (m : List (κ × α)) : List (κ × α) :=
  (k, v) :: eraseA k m

theorem lookupA_cons {κ α : Type} [DecidableEq κ] (k : κ) (kv : κ × α)
    (rest : List (κ × α)) :
    lookupA k (kv :: rest) = if kv.1 = k then some kv.2 else lookupA k rest := rfl

theorem eraseA_cons {κ α : Type} [DecidableEq κ] (k : κ) (kv : κ × α)
    (rest : List (κ × α)) :
    eraseA k (kv :: rest) = if kv.1 = k then eraseA k rest else kv :: eraseA k rest := by
  by_cases h : kv.1 = k <;> simp [eraseA, List.filter, h]

theorem lookupA_eraseA_self {κ α : Type} [DecidableEq κ] (k : κ) (m : List (κ × α)) :
    lookupA k (eraseA k m) = none := by
  induction m with
  | nil => rfl
  | cons kv rest ih =>
    rw [eraseA_cons]
    by_cases h : kv.1 = k
    · rw [if_pos h]; exact ih
    · rw [if_neg h, lookupA_cons, if_neg h]; exact ih

theorem lookupA_eraseA_ne {κ α : Type} [DecidableEq κ] {k k' : κ} (m : List (κ × α))
    (h : k' ≠ k) : lookupA k' (eraseA k m) = lookupA k' m := by
  induction m with
  | nil => rfl
  | cons kv rest ih =>
    rw [eraseA_cons]
    by_cases hk : kv.1 = k
    · have h2 : kv.1 ≠ k' := by rw [hk]; exact Ne.symm h
      rw [if_pos hk, ih, lookupA_cons, if_neg h2]
    · rw [if_neg hk, lookupA_cons, lookupA_cons]
      by_cases h2 : kv.1 = k'
      · rw [if_pos h2, if_pos h2]
      · rw [if_neg h2, if_neg h2]; exact ih

theorem lookupA_insertA_self {κ α : Type} [DecidableEq κ] (k : κ) (v : α)
    (m : List (κ × α)) : lookupA k (insertA k v m) = some v := by
  simp [insertA, lookupA]

theorem lookupA_insertA_ne {κ α : Type} [DecidableEq κ] {k k' : κ} (v : α)
    (m : List (κ × α)) (h : k' ≠ k) : lookupA k' (insertA k v m) = lookupA k' m := by
  have hne : k ≠ k' := fun hc => h hc.symm
  rw [insertA, lookupA_cons, if_neg hne]
  exact lookupA_eraseA_ne m h

theorem eraseA_eraseA {κ α : Type} [DecidableEq κ] (k : κ) (m : List (κ × α)) :
    eraseA k (eraseA k m) = eraseA k m := by
  induction m with
  | nil => rfl
  | cons kv rest ih =>
    rw [eraseA_cons]
    by_cases h : kv.1 = k
    · rw [if_pos h]; exact ih
    · rw [if_neg h, eraseA_cons, if_neg h, ih]

theorem eraseA_insertA_self {κ α : Type} [DecidableEq κ] (k : κ) (v : α)
    (m : List (κ × α)) : eraseA k (insertA k v m) = eraseA k m := by
  rw [insertA, eraseA_cons]
  simp [eraseA_eraseA]

/-- Membership in an erased list. -/
theorem mem_eraseA {κ α : Type} [DecidableEq κ] {kv : κ × α} {k : κ} {m : List (κ × α)} :
    kv ∈ eraseA k m ↔ kv ∈ m ∧ kv.1 ≠ k := by
  simp [eraseA]

/-- Membership in an inserted list. -/
theorem mem_insertA {κ α : Type} [DecidableEq κ] {kv : κ × α} {k : κ} {v : α}
    {m : List (κ × α)} : kv ∈ insertA k v m ↔ kv = (k, v) ∨ (kv ∈ m ∧ kv.1 ≠ k) := by
  simp [insertA, mem_eraseA]

theorem lookupA_mem {κ α : Type} [DecidableEq κ] {k : κ} {v : α} {m : List (κ × α)}
    (h : lookupA k m = some v) : (k, v) ∈ m := by
  induction m with
  | nil => simp [lookupA] at h
  | cons kv rest ih =>
    rw [lookupA_cons] at h
    by_cases hk : kv.1 = k
    · rw [if_pos hk] at h
      injection h with h2
      have hkv : kv = (k, v) := by
        obtain ⟨a, b⟩ := kv
        simp only at hk h2
        rw [hk, h2]
      rw [hkv]
      exact List.mem_cons_self _ _
    · rw [if_neg hk] at h
      exact List.mem_cons_of_mem _ (ih h)

theorem lookupA_eq_none_iff {κ α : Type} [DecidableEq κ] {k : κ} {m : List (κ × α)} :
    lookupA k m = none ↔ ∀ v : α, (k, v) ∉ m := by
  induction m with
  | nil => simp [lookupA]
  | cons kv rest ih =>
    rw [lookupA_cons]
    by_cases hk : kv.1 = k
    · simp only [if_pos hk]
      constructor
      · intro h; cases h
      · intro h
        have hkv : kv = (k, kv.2) := by
          obtain ⟨a, b⟩ := kv
          simp only at hk
          rw [hk]
        have hmem : (k, kv.2) ∈ kv :: rest := by
          rw [← hkv]
          exact List.mem_cons_self kv rest
        exact absurd hmem (h kv.2)
    · simp only [if_neg hk, ih]
      constructor
      · intro h v hv
        rcases List.mem_cons.mp hv with h1 | h2
        · exact hk (by rw [← h1])
        · exact h v h2
      · intro h v hv
        exact h v (List.mem_cons_of_mem _ hv)

theorem keys_eraseA_sublist {κ α : Type} [DecidableEq κ] (k : κ) (m : List (κ × α)) :
    ((eraseA k m).map Prod.fst).Sublist (m.map Prod.fst) :=
  List.Sublist.map Prod.fst (List.filter_sublist m)

theorem nodup_keys_eraseA {κ α : Type} [DecidableEq κ] (k : κ) {m : List (κ × α)}
    (h : (m.map Prod.fst).Nodup) : ((eraseA k m).map Prod.fst).Nodup :=
  h.sublist (keys_eraseA_sublist k m)

theorem nodup_keys_insertA {κ α : Type} [DecidableEq κ] (k : κ) (v : α)
    {m : List (κ × α)} (h : (m.map Prod.fst).Nodup) :
    ((insertA k v m).map Prod.fst).Nodup := by
  rw [insertA, List.map_cons]
  refine List.nodup_cons.mpr ⟨?_, nodup_keys_eraseA k h⟩
  intro hk
  rcases List.mem_map.mp hk with ⟨kv, hkv, hfst⟩
  exact (mem_eraseA.mp hkv).2 hfst

/-- With duplicate-free keys, a key determines its value. -/
theorem mem_unique_key {κ α : Type} [DecidableEq κ] {k : κ} {v v' : α}
    {m : List (κ × α)} (hnd : (m.map Prod.fst).Nodup)
    (h1 : (k, v) ∈ m) (h2 : (k, v') ∈ m) : v = v' := by
  induction m with
  | nil => cases h1
  | cons kv rest ih =>
    rw [List.map_cons, List.nodup_cons] at hnd
    rcases List.mem_cons.mp h1 with e1 | m1 <;> rcases List.mem_cons.mp h2 with e2 | m2
    · exact congrArg Prod.snd (e1.trans e2.symm)
    · exact absurd (List.mem_map.mpr ⟨(k, v'), m2, by rw [← e1]⟩) hnd.1
    · exact absurd (List.mem_map.mpr ⟨(k, v), m1, by rw [← e2]⟩) hnd.1
    · exact ih hnd.2 m1 m2

/-! ## Data model (`internal/models/models.go`) -/

inductive PlayerType
  | Participant
  | Observer
deriving DecidableEq, Repr

inductive PlayerMode
  | Awake
  | Asleep
deriving DecidableEq, Repr

/-- Model of `models.Player`. `id` is the private (connection) id; `recoveryId` is the
client-held recovery token (`uuid.UUID`, embedded as `Nat`). -/
structure Player where
  id : String
  publicId : Nat
  recoveryId : Nat
  name : String
  type : PlayerType
  mode : PlayerMode
deriving DecidableEq, Repr

/-- Model of `models.PokerSession`. `votes` is keyed by the publicId rendered in
decimal (`fmt.Sprintf` with the `%d` verb in the source). -/
structure PokerSession where
  cardSet : List String
  votes : List (String × String)
  isShown : Bool
deriving DecidableEq, Repr

/-- Model of `models.PokerServer` (a room). `LastAccess` is time-valued and outside
the embedding. -/
structure PokerServer where
  id : Nat
  players : List (String × Player)
  currentSession : PokerSession
deriving DecidableEq, Repr

/-- The engine's room table (`Engine.servers`), plus a freshness counter
standing in for `uuid.New()`. -/
structure Engine where
  servers : List (Nat × PokerServer)
  nextId : Nat
deriving DecidableEq, Repr

/-- One constructor per `errors.New` site in `engine.go`. -/
inductive EngError
  | roomNotFound
  | playerNotFound
  | observersCannotVote
  | voteRevealLocked
  | unvoteRevealLocked
  | emptyCardSet
deriving DecidableEq, Repr

/-- The spec's error taxonomy (§7). -/
inductive ErrKind
  | InvalidInput
  | NotFound
  | Forbidden
  | Locked
deriving DecidableEq, Repr

/-- Classification of each concrete engine error under the spec taxonomy. -/
def EngError.kind : EngError → ErrKind
  | .roomNotFound => .NotFound
  | .playerNotFound => .NotFound
  | .observersCannotVote => .Forbidden
  | .voteRevealLocked => .Locked
  | .unvoteRevealLocked => .Locked
  | .emptyCardSet => .InvalidInput

/-! ## `CreateRoom` -/

/-- Model of `strings.Split(s, ",")`, on the string viewed as a character list. -/
def splitOnComma : List Char → List (List Char)
  | [] => [[]]
  | c :: rest =>
    match splitOnComma rest with
    | [] => [[]]
    | t :: ts => if c = ',' then [] :: t :: ts else (c :: t) :: ts

/-- Model of `unicode.IsSpace` on the Latin-1 range: the whitespace characters
`strings.TrimSpace` strips (space code points above U+00A0 are not
modelled; no claim mentions them). -/
def goIsSpace (c : Char) : Bool :=
  decide (c = ' ') || decide (c = '\t') || decide (c = '\n') || decide (c = '\x0B') ||
    decide (c = '\x0C') || decide (c = '\r') || decide (c.val = 0x85) || decide (c.val = 0xA0)

/-- Model of `strings.TrimSpace`: drop leading and trailing whitespace. -/
def trimSpace (s : List Char) : List Char :=
  ((s.dropWhile goIsSpace).reverse.dropWhile goIsSpace).reverse

/-- The token-cleaning loop of `CreateRoom`: split on commas, trim each
token, append the ones that are non-empty after trimming. -/
def cleanCards (desiredCardSet : List Char) : List String :=
  (((splitOnComma desiredCardSet).map trimSpace).filter
    (fun t => decide (t ≠ []))).map (fun t => String.mk t)

/-- Translation of `Engine.CreateRoom`. -/
def CreateRoom (e : Engine) (desiredCardSet : List Char) :
    Except EngError Nat × Engine :=
  let cleanedCards := cleanCards desiredCardSet
  if cleanedCards = [] then (.error .emptyCardSet, e)
  else
    let id := e.nextId
    let room : PokerServer :=
      { id := id, players := [],
        currentSession := { cardSet := cleanedCards, votes := [], isShown := false } }
    (.ok id, { servers := insertA id room e.servers, nextId := e.nextId + 1 })

/-! ## `JoinRoom` -/

/-- The recovery scan of `JoinRoom`: the first player (in iteration order)
whose `recoveryId` matches. -/
def findRecovery (recoveryId : Nat) : List (String × Player) → Option Player
  | [] => none
  | (_, p) :: rest =>
    if p.recoveryId = recoveryId then some p else findRecovery recoveryId rest

/-- The publicId allocation of `JoinRoom`: 1 for an empty room, otherwise
the source sorts the present publicIds ascending and adds 1 to the last
element, i.e. 1 + the maximum present publicId. -/
def allocPublicId (players : List (String × Player)) : Nat :=
  if players = [] then 1
  else (players.map (fun kp => kp.2.publicId)).foldl Nat.max 0 + 1

/-- Translation of `Engine.JoinRoom`. -/
def JoinRoom (e : Engine) (id recoveryId : Nat) (playerName privateId : String)
    (pType : PlayerType) : Except EngError Player × Engine :=
  match lookupA id e.servers with
  | none => (.error .roomNotFound, e)
  | some server =>
    match findRecovery recoveryId server.players with
    | some p =>
      let p' : Player :=
        { p with id := privateId, mode := .Awake, name := playerName, type := pType }
      let server' : PokerServer :=
        { server with players := insertA privateId p' (eraseA p.id server.players) }
      (.ok p', { e with servers := insertA id server' e.servers })
    | none =>
      let publicId := allocPublicId server.players
      let player : Player :=
        { id := privateId, publicId := publicId, recoveryId := recoveryId,
          name := playerName, type := pType, mode := .Awake }
      let server' : PokerServer :=
        { server with players := insertA privateId player server.players }
      (.ok player, { e with servers := insertA id server' e.servers })

/-! ## Voting operations -/

/-- Model of `fmt.Sprintf` with the `%d` verb: the decimal rendering used as the key
of the votes map. -/
def votesKey (publicId : Nat) : String := toString publicId

/-- Translation of `Engine.Vote`; `none` in the first component means success (nil error). -/
def Vote (e : Engine) (serverId : Nat) (privateId voteValue : String) :
    Option EngError × Engine :=
  match lookupA serverId e.servers with
  | none => (some .roomNotFound, e)
  | some server =>
    match lookupA privateId server.players with
    | none => (some .playerNotFound, e)
    | some player =>
      if player.type = .Observer then (some .observersCannotVote, e)
      else if server.currentSession.isShown then (some .voteRevealLocked, e)
      else
        let server' : PokerServer :=
          { server with currentSession :=
              { server.currentSession with
                votes := insertA (votesKey player.publicId) voteValue
                  server.currentSession.votes } }
        (none, { e with servers := insertA serverId server' e.servers })

/-- Translation of `Engine.UnVote`; note the source checks `isShown` before looking the
player up, the reverse of `Vote`'s order. -/
def UnVote (e : Engine) (serverId : Nat) (privateId : String) :
    Option EngError × Engine :=
  match lookupA serverId e.servers with
  | none => (some .roomNotFound, e)
  | some server =>
    if server.currentSession.isShown then (some .unvoteRevealLocked, e)
    else
      match lookupA privateId server.players with
      | none => (some .playerNotFound, e)
      | some player =>
        let server' : PokerServer :=
          { server with currentSession :=
              { server.currentSession with
                votes := eraseA (votesKey player.publicId)
                  server.currentSession.votes } }
        (none, { e with servers := insertA serverId server' e.servers })

/-- Translation of `Engine.ClearVotes`. -/
def ClearVotes (e : Engine) (serverId : Nat) : Option EngError × Engine :=
  match lookupA serverId e.servers with
  | none => (some .roomNotFound, e)
  | some server =>
    let server' : PokerServer :=
      { server with currentSession :=
          { server.currentSession with votes := [], isShown := false } }
    (none, { e with servers := insertA serverId server' e.servers })

/-- Translation of `Engine.ShowVotes`. -/
def ShowVotes (e : Engine) (serverId : Nat) : Option EngError × Engine :=
  match lookupA serverId e.servers with
  | none => (some .roomNotFound, e)
  | some server =>
    let server' : PokerServer :=
      { server with currentSession :=
          { server.currentSession with isShown := true } }
    (none, { e with servers := insertA serverId server' e.servers })

/-! ## `KickPlayer` and `LeaveRoom` -/

/-- The kick scan: the first entry (in iteration order) whose player holds
the given publicId. -/
def findByPublicId (publicId : Nat) : List (String × Player) → Option (String × Player)
  | [] => none
  | (k, p) :: rest =>
    if p.publicId = publicId then some (k, p) else findByPublicId publicId rest

/-- Translation of `Engine.KickPlayer`: removes the first player holding the publicId
together with their vote entry, returning their private id. -/
def KickPlayer (e : Engine) (serverId kickedPublicId : Nat) :
    Except EngError String × Engine :=
  match lookupA serverId e.servers with
  | none => (.error .roomNotFound, e)
  | some server =>
    match findByPublicId kickedPublicId server.players with
    | none => (.error .playerNotFound, e)
    | some (id, p) =>
      let server' : PokerServer :=
        { server with
          players := eraseA id server.players
          currentSession := { server.currentSession with
            votes := eraseA (votesKey p.publicId) server.currentSession.votes } }
      (.ok id, { e with servers := insertA serverId server' e.servers })

/-- Translation of `Engine.LeaveRoom`: returns `(name, true)` on success and `("", false)`
when the room or player is unknown (a no-op, not an error, in the source). -/
def LeaveRoom (e : Engine) (serverId : Nat) (privateId : String) :
    (String × Bool) × Engine :=
  match lookupA serverId e.servers with
  | none => (("", false), e)
  | some server =>
    match lookupA privateId server.players with
    | none => (("", false), e)
    | some player =>
      let server' : PokerServer :=
        { server with
          players := eraseA privateId server.players
          currentSession := { server.currentSession with
            votes := eraseA (votesKey player.publicId) server.currentSession.votes } }
      ((player.name, true), { e with servers := insertA serverId server' e.servers })

/-! ## Operation traces -/

/-- The engine operations a client can drive (signatures as in the source). -/
inductive Op
  | createRoom (desiredCardSet : List Char)
  | joinRoom (id recoveryId : Nat) (playerName privateId : String) (pType : PlayerType)
  | vote (serverId : Nat) (privateId voteValue : String)
  | unvote (serverId : Nat) (privateId : String)
  | showVotes (serverId : Nat)
  | clearVotes (serverId : Nat)
  | kickPlayer (serverId kickedPublicId : Nat)
  | leaveRoom (serverId : Nat) (privateId : String)
deriving DecidableEq, Repr

/-- The state transition of one operation (its returned value discarded). -/
def applyOp (e : Engine) : Op → Engine
  | .createRoom s => (CreateRoom e s).2
  | .joinRoom id r n pid t => (JoinRoom e id r n pid t).2
  | .vote sid pid v => (Vote e sid pid v).2
  | .unvote sid pid => (UnVote e sid pid).2
  | .showVotes sid => (ShowVotes e sid).2
  | .clearVotes sid => (ClearVotes e sid).2
  | .kickPlayer sid k => (KickPlayer e sid k).2
  | .leaveRoom sid pid => (LeaveRoom e sid pid).2

/-- Whether an `Except`-returning operation succeeded. -/
def isOkE {ε α : Type} : Except ε α → Bool
  | .ok _ => true
  | .error _ => false

/-- Whether an operation succeeds: `Except.ok` / nil error / the boolean
`LeaveRoom` returns. -/
def opOk (e : Engine) : Op → Bool
  | .createRoom s => isOkE (CreateRoom e s).1
  | .joinRoom id r n pid t => isOkE (JoinRoom e id r n pid t).1
  | .vote sid pid v => (Vote e sid pid v).1.isNone
  | .unvote sid pid => (UnVote e sid pid).1.isNone
  | .showVotes sid => (ShowVotes e sid).1.isNone
  | .clearVotes sid => (ClearVotes e sid).1.isNone
  | .kickPlayer sid k => isOkE (KickPlayer e sid k).1
  | .leaveRoom sid pid => (LeaveRoom e sid pid).1.2

/-- Run a sequence of operations from a starting engine state. -/
def runOps (e : Engine) : List Op → Engine
  | [] => e
  | op :: ops => runOps (applyOp e op) ops

/-- The engine as built by `NewEngine`: no rooms. -/
def emptyEngine : Engine := { servers := [], nextId := 0 }

/-- The room under a given id, if any (read-only accessor for statements). -/
def roomOf (e : Engine) (serverId : Nat) : Option PokerServer :=
  lookupA serverId e.servers

/-! ## Support lemmas about the scans and the publicId allocation -/

theorem findRecovery_mem {recoveryId : Nat} {ps : List (String × Player)} {p : Player}
    (h : findRecovery recoveryId ps = some p) :
    p.recoveryId = recoveryId ∧ ∃ k, (k, p) ∈ ps := by
  induction ps with
  | nil => cases h
  | cons kp rest ih =>
    obtain ⟨k₀, q⟩ := kp
    rw [findRecovery] at h
    by_cases hq : q.recoveryId = recoveryId
    · rw [if_pos hq] at h
      injection h with h
      subst h
      exact ⟨hq, k₀, List.mem_cons_self _ _⟩
    · rw [if_neg hq] at h
      obtain ⟨h1, k, hk⟩ := ih h
      exact ⟨h1, k, List.mem_cons_of_mem _ hk⟩

theorem findRecovery_eq_none_iff {recoveryId : Nat} {ps : List (String × Player)} :
    findRecovery recoveryId ps = none ↔ ∀ kp ∈ ps, kp.2.recoveryId ≠ recoveryId := by
  induction ps with
  | nil => simp [findRecovery]
  | cons kp rest ih =>
    obtain ⟨k₀, q⟩ := kp
    rw [findRecovery]
    by_cases hq : q.recoveryId = recoveryId
    · simp [hq]
    · simp only [if_neg hq, ih]
      constructor
      · intro h kp hkp
        rcases List.mem_cons.mp hkp with h1 | h2
        · rw [h1]; exact hq
        · exact h kp h2
      · intro h kp hkp
        exact h kp (List.mem_cons_of_mem _ hkp)

theorem findByPublicId_mem {publicId : Nat} {ps : List (String × Player)}
    {k : String} {p : Player} (h : findByPublicId publicId ps = some (k, p)) :
    (k, p) ∈ ps ∧ p.publicId = publicId := by
  induction ps with
  | nil => cases h
  | cons kp rest ih =>
    obtain ⟨k₀, q⟩ := kp
    rw [findByPublicId] at h
    by_cases hq : q.publicId = publicId
    · rw [if_pos hq] at h
      injection h with h
      injection h with h1 h2
      subst h1; subst h2
      exact ⟨List.mem_cons_self _ _, hq⟩
    · rw [if_neg hq] at h
      obtain ⟨h1, h2⟩ := ih h
      exact ⟨List.mem_cons_of_mem _ h1, h2⟩

theorem le_foldl_max_base (l : List Nat) : ∀ a : Nat, a ≤ l.foldl Nat.max a := by
  induction l with
  | nil => intro a; exact Nat.le_refl a
  | cons y ys ih =>
    intro a
    exact Nat.le_trans (Nat.le_max_left a y) (ih (Nat.max a y))

theorem le_foldl_max {l : List Nat} {x : Nat} (hx : x ∈ l) (a : Nat) :
    x ≤ l.foldl Nat.max a := by
  induction l generalizing a with
  | nil => cases hx
  | cons y ys ih =>
    rcases List.mem_cons.mp hx with h1 | h2
    · subst h1
      exact Nat.le_trans (Nat.le_max_right a x) (le_foldl_max_base ys (Nat.max a x))
    · exact ih h2 (Nat.max a y)

/-- Every present publicId is strictly below the one `JoinRoom` allocates. -/
theorem allocPublicId_gt {ps : List (String × Player)} {kp : String × Player}
    (h : kp ∈ ps) : kp.2.publicId < allocPublicId ps := by
  have hne : ps ≠ [] := by
    intro hc; rw [hc] at h; cases h
  rw [allocPublicId, if_neg hne]
  have : kp.2.publicId ∈ ps.map (fun kp => kp.2.publicId) :=
    List.mem_map.mpr ⟨kp, h, rfl⟩
  exact Nat.lt_succ_of_le (le_foldl_max this 0)

theorem insertA_insertA {κ α : Type} [DecidableEq κ] (k : κ) (v v' : α)
    (m : List (κ × α)) : insertA k v (insertA k v' m) = insertA k v m := by
  show (k, v) :: eraseA k (insertA k v' m) = (k, v) :: eraseA k m
  rw [eraseA_insertA_self]

/-! ## Reachable-state invariants -/

/-- Well-formedness of a room's player map: each record's `id` field equals
its key, and the keys (private ids) are duplicate-free.  The engine itself
only ever inserts a player under its own `id`. -/
def playersWF (ps : List (String × Player)) : Prop :=
  (∀ kp ∈ ps, kp.2.id = kp.1) ∧ (ps.map Prod.fst).Nodup

/-- Every vote key is the decimal publicId of some player present in the
room. -/
def votesBacked (srv : PokerServer) : Prop :=
  ∀ kv ∈ srv.currentSession.votes, ∃ kp ∈ srv.players, kv.1 = votesKey kp.2.publicId

def roomWF (srv : PokerServer) : Prop := playersWF srv.players ∧ votesBacked srv

def serversWF (l : List (Nat × PokerServer)) : Prop := ∀ rs ∈ l, roomWF rs.2

def engineWF (e : Engine) : Prop := serversWF e.servers

/-- The private-id freshness discipline the boundary layer guarantees
(spec §3: every new socket gets a new private id): a join never supplies a
private id already bound in the target room. -/
def opSafe (e : Engine) : Op → Bool
  | .joinRoom id _ _ privateId _ =>
    match lookupA id e.servers with
    | none => true
    | some server => (lookupA privateId server.players).isNone
  | _ => true

/-- Every operation of the trace obeys `opSafe` in the state it runs in. -/
def safeTrace (e : Engine) : List Op → Bool
  | [] => true
  | op :: ops => opSafe e op && safeTrace (applyOp e op) ops

theorem serversWF_insertA {l : List (Nat × PokerServer)} {id : Nat}
    {srv : PokerServer} (hl : serversWF l) (hsrv : roomWF srv) :
    serversWF (insertA id srv l) := by
  intro rs hrs
  rcases mem_insertA.mp hrs with h1 | ⟨h2, _⟩
  · rw [h1]; exact hsrv
  · exact hl rs h2

/-- An entry with key `k` in a duplicate-free map containing `(k, v)` is
`(k, v)`. -/
theorem snd_eq_of_key_eq {κ α : Type} [DecidableEq κ] {m : List (κ × α)}
    {kp : κ × α} {k : κ} {v : α} (hnd : (m.map Prod.fst).Nodup)
    (hkp : kp ∈ m) (hk : kp.1 = k) (hv : (k, v) ∈ m) : kp.2 = v := by
  have hkp' : (k, kp.2) ∈ m := by
    have hkpe : kp = (k, kp.2) := by
      obtain ⟨a, b⟩ := kp
      simp only at hk ⊢
      rw [hk]
    rw [← hkpe]
    exact hkp
  exact mem_unique_key hnd hkp' hv

/-- A member of a map in which key `k` is unbound does not have key `k`. -/
theorem key_ne_of_lookupA_none {κ α : Type} [DecidableEq κ] {m : List (κ × α)}
    {kp : κ × α} {k : κ} (hnone : lookupA k m = none) (hkp : kp ∈ m) :
    kp.1 ≠ k := by
  intro hc
  have hkpe : kp = (k, kp.2) := by
    obtain ⟨a, b⟩ := kp
    simp only at hc ⊢
    rw [hc]
  exact lookupA_eq_none_iff.mp hnone kp.2 (hkpe ▸ hkp)

/-- Every single engine operation preserves room well-formedness, provided
joins respect the private-id freshness discipline. -/
theorem engineWF_applyOp {e : Engine} {op : Op} (he : engineWF e)
    (hop : opSafe e op = true) : engineWF (applyOp e op) := by
  cases op with
  | createRoom s =>
    by_cases hc : cleanCards s = []
    · simpa [applyOp, CreateRoom, hc] using he
    · simp only [applyOp, CreateRoom, if_neg hc]
      refine serversWF_insertA he ?_
      refine ⟨⟨fun kp hkp => absurd hkp (List.not_mem_nil kp), List.nodup_nil⟩, ?_⟩
      intro kv hkv
      exact absurd hkv (List.not_mem_nil kv)
  | joinRoom id r n pid t =>
    cases hs : lookupA id e.servers with
    | none => simpa [applyOp, JoinRoom, hs] using he
    | some server =>
      have hwf : roomWF server := he _ (lookupA_mem hs)
      have hfresh : lookupA pid server.players = none := by
        simp only [opSafe, hs, Option.isNone_iff_eq_none] at hop
        exact hop
      cases hr : findRecovery r server.players with
      | some p =>
        simp only [applyOp, JoinRoom, hs, hr]
        refine serversWF_insertA he ?_
        obtain ⟨hrid, k₀, hk₀⟩ := findRecovery_mem hr
        have hpid_key : p.id = k₀ := hwf.1.1 (k₀, p) hk₀
        have hpmem : (p.id, p) ∈ server.players := by rw [hpid_key]; exact hk₀
        constructor
        · constructor
          · intro kp hkp
            rcases mem_insertA.mp hkp with h1 | ⟨h2, _⟩
            · rw [h1]
            · exact hwf.1.1 kp (mem_eraseA.mp h2).1
          · exact nodup_keys_insertA _ _ (nodup_keys_eraseA _ hwf.1.2)
        · intro kv hkv
          obtain ⟨kp, hkp, hkey⟩ := hwf.2 kv hkv
          by_cases hcase : kp.1 = p.id
          · have heq : kp.2 = p := snd_eq_of_key_eq hwf.1.2 hkp hcase hpmem
            refine ⟨(pid, { p with id := pid, mode := .Awake, name := n, type := t }),
              mem_insertA.mpr (Or.inl rfl), ?_⟩
            rw [hkey, heq]
          · have hkpid : kp.1 ≠ pid := key_ne_of_lookupA_none hfresh hkp
            exact ⟨kp, mem_insertA.mpr (Or.inr ⟨mem_eraseA.mpr ⟨hkp, hcase⟩, hkpid⟩), hkey⟩
      | none =>
        simp only [applyOp, JoinRoom, hs, hr]
        refine serversWF_insertA he ?_
        constructor
        · constructor
          · intro kp hkp
            rcases mem_insertA.mp hkp with h1 | ⟨h2, _⟩
            · rw [h1]
            · exact hwf.1.1 kp h2
          · exact nodup_keys_insertA _ _ hwf.1.2
        · intro kv hkv
          obtain ⟨kp, hkp, hkey⟩ := hwf.2 kv hkv
          have hkpid : kp.1 ≠ pid := key_ne_of_lookupA_none hfresh hkp
          exact ⟨kp, mem_insertA.mpr (Or.inr ⟨hkp, hkpid⟩), hkey⟩
  | vote sid pid v =>
    cases hs : lookupA sid e.servers with
    | none => simpa [applyOp, Vote, hs] using he
    | some server =>
      cases hp : lookupA pid server.players with
      | none => simpa [applyOp, Vote, hs, hp] using he
      | some player =>
        have hwf : roomWF server := he _ (lookupA_mem hs)
        by_cases hobs : player.type = PlayerType.Observer
        · simpa [applyOp, Vote, hs, hp, hobs] using he
        · by_cases hshown : server.currentSession.isShown = true
          · simpa [applyOp, Vote, hs, hp, hobs, hshown] using he
          · simp only [applyOp, Vote, hs, hp, if_neg hobs, if_neg hshown]
            refine serversWF_insertA he ?_
            refine ⟨hwf.1, ?_⟩
            intro kv hkv
            rcases mem_insertA.mp hkv with h1 | ⟨h2, _⟩
            · exact ⟨(pid, player), lookupA_mem hp, by rw [h1]⟩
            · obtain ⟨kp, hkp, hkey⟩ := hwf.2 kv h2
              exact ⟨kp, hkp, hkey⟩
  | unvote sid pid =>
    cases hs : lookupA sid e.servers with
    | none => simpa [applyOp, UnVote, hs] using he
    | some server =>
      by_cases hshown : server.currentSession.isShown = true
      · simpa [applyOp, UnVote, hs, hshown] using he
      · cases hp : lookupA pid server.players with
        | none => simpa [applyOp, UnVote, hs, hshown, hp] using he
        | some player =>
          simp only [applyOp, UnVote, hs, if_neg hshown, hp]
          refine serversWF_insertA he ?_
          have hwf : roomWF server := he _ (lookupA_mem hs)
          refine ⟨hwf.1, ?_⟩
          intro kv hkv
          obtain ⟨kp, hkp, hkey⟩ := hwf.2 kv (mem_eraseA.mp hkv).1
          exact ⟨kp, hkp, hkey⟩
  | showVotes sid =>
    cases hs : lookupA sid e.servers with
    | none => simpa [applyOp, ShowVotes, hs] using he
    | some server =>
      simp only [applyOp, ShowVotes, hs]
      refine serversWF_insertA he ?_
      have hwf : roomWF server := he _ (lookupA_mem hs)
      exact ⟨hwf.1, fun kv hkv => hwf.2 kv hkv⟩
  | clearVotes sid =>
    cases hs : lookupA sid e.servers with
    | none => simpa [applyOp, ClearVotes, hs] using he
    | some server =>
      simp only [applyOp, ClearVotes, hs]
      refine serversWF_insertA he ?_
      have hwf : roomWF server := he _ (lookupA_mem hs)
      exact ⟨hwf.1, fun kv hkv => absurd hkv (List.not_mem_nil kv)⟩
  | kickPlayer sid kpid =>
    cases hs : lookupA sid e.servers with
    | none => simpa [applyOp, KickPlayer, hs] using he
    | some server =>
      cases hf : findByPublicId kpid server.players with
      | none => simpa [applyOp, KickPlayer, hs, hf] using he
      | some entry =>
        obtain ⟨k₀, p⟩ := entry
        simp only [applyOp, KickPlayer, hs, hf]
        refine serversWF_insertA he ?_
        have hwf : roomWF server := he _ (lookupA_mem hs)
        obtain ⟨hmem, hpub⟩ := findByPublicId_mem hf
        constructor
        · exact ⟨fun kp hkp => hwf.1.1 kp (mem_eraseA.mp hkp).1,
            nodup_keys_eraseA _ hwf.1.2⟩
        · intro kv hkv
          obtain ⟨hkv_votes, hkv_ne⟩ := mem_eraseA.mp hkv
          obtain ⟨kp, hkp, hkey⟩ := hwf.2 kv hkv_votes
          by_cases hc : kp.1 = k₀
          · have heq : kp.2 = p := snd_eq_of_key_eq hwf.1.2 hkp hc hmem
            exact absurd (by rw [hkey, heq]) hkv_ne
          · exact ⟨kp, mem_eraseA.mpr ⟨hkp, hc⟩, hkey⟩
  | leaveRoom sid pid =>
    cases hs : lookupA sid e.servers with
    | none => simpa [applyOp, LeaveRoom, hs] using he
    | some server =>
      cases hp : lookupA pid server.players with
      | none => simpa [applyOp, LeaveRoom, hs, hp] using he
      | some player =>
        simp only [applyOp, LeaveRoom, hs, hp]
        refine serversWF_insertA he ?_
        have hwf : roomWF server := he _ (lookupA_mem hs)
        have hmem : (pid, player) ∈ server.players := lookupA_mem hp
        constructor
        · exact ⟨fun kp hkp => hwf.1.1 kp (mem_eraseA.mp hkp).1,
            nodup_keys_eraseA _ hwf.1.2⟩
        · intro kv hkv
          obtain ⟨hkv_votes, hkv_ne⟩ := mem_eraseA.mp hkv
          obtain ⟨kp, hkp, hkey⟩ := hwf.2 kv hkv_votes
          by_cases hc : kp.1 = pid
          · have heq : kp.2 = player := snd_eq_of_key_eq hwf.1.2 hkp hc hmem
            exact absurd (by rw [hkey, heq]) hkv_ne
          · exact ⟨kp, mem_eraseA.mpr ⟨hkp, hc⟩, hkey⟩

/-- Well-formedness is preserved along any trace of operations obeying the
private-id freshness discipline. -/
theorem engineWF_runOps {e : Engine} {ops : List Op} (he : engineWF e)
    (hsafe : safeTrace e ops = true) : engineWF (runOps e ops) := by
  induction ops generalizing e with
  | nil => exact he
  | cons op ops ih =>
    rw [safeTrace, Bool.and_eq_true] at hsafe
    exact ih (engineWF_applyOp he hsafe.1) hsafe.2

/-- The state `NewEngine` builds is trivially well-formed. -/
theorem engineWF_empty : engineWF emptyEngine :=
  fun rs hrs => absurd hrs (List.not_mem_nil rs)

theorem lookupA_eq_none_of_keys_lt {α : Type} {m : List (Nat × α)} {k : Nat}
    (h : ∀ rs ∈ m, rs.1 < k) : lookupA k m = none := by
  rw [lookupA_eq_none_iff]
  intro v hv
  exact absurd (h (k, v) hv) (Nat.lt_irrefl k)

/-! ## Claim C6 — `Vote` semantics -/

/-- Claim C6: `vote(roomId, privateId, value)` fails with a NotFound-kind
error when the room or the player is unknown, with the Forbidden-kind error
when the player is an Observer, and with the Locked-kind error when
`isShown` is true (errors checked in that order, as in the source); on
success it binds `votes[publicId] = value`, overwriting any prior value for
that publicId and leaving every other key unchanged. -/
theorem c6_vote_spec (e : Engine) (serverId : Nat) (privateId voteValue : String) :
    (lookupA serverId e.servers = none →
      Vote e serverId privateId voteValue = (some EngError.roomNotFound, e) ∧
      EngError.roomNotFound.kind = ErrKind.NotFound) ∧
    (∀ server : PokerServer, lookupA serverId e.servers = some server →
      (lookupA privateId server.players = none →
        Vote e serverId privateId voteValue = (some EngError.playerNotFound, e) ∧
        EngError.playerNotFound.kind = ErrKind.NotFound) ∧
      (∀ player : Player, lookupA privateId server.players = some player →
        (player.type = PlayerType.Observer →
          Vote e serverId privateId voteValue = (some EngError.observersCannotVote, e) ∧
          EngError.observersCannotVote.kind = ErrKind.Forbidden) ∧
        (player.type ≠ PlayerType.Observer → server.currentSession.isShown = true →
          Vote e serverId privateId voteValue = (some EngError.voteRevealLocked, e) ∧
          EngError.voteRevealLocked.kind = ErrKind.Locked) ∧
        (player.type ≠ PlayerType.Observer → server.currentSession.isShown = false →
          (Vote e serverId privateId voteValue).1 = none ∧
          (Vote e serverId privateId voteValue).2.servers =
            insertA serverId ⟨server.id, server.players,
              ⟨server.currentSession.cardSet,
                insertA (votesKey player.publicId) voteValue server.currentSession.votes,
                server.currentSession.isShown⟩⟩ e.servers ∧
          lookupA (votesKey player.publicId)
            (insertA (votesKey player.publicId) voteValue server.currentSession.votes) =
              some voteValue ∧
          (∀ k : String, k ≠ votesKey player.publicId →
            lookupA k (insertA (votesKey player.publicId) voteValue
              server.currentSession.votes) = lookupA k server.currentSession.votes)))) := by
  refine ⟨?_, ?_⟩
  · intro h
    exact ⟨by simp [Vote, h], rfl⟩
  · intro server hs
    refine ⟨?_, ?_⟩
    · intro hp
      exact ⟨by simp [Vote, hs, hp], rfl⟩
    · intro player hp
      refine ⟨?_, ?_, ?_⟩
      · intro hobs
        exact ⟨by simp [Vote, hs, hp, hobs], rfl⟩
      · intro hobs hshown
        exact ⟨by simp [Vote, hs, hp, hobs, hshown], rfl⟩
      · intro hobs hshown
        refine ⟨by simp [Vote, hs, hp, hobs, hshown], by simp [Vote, hs, hp, hobs, hshown],
          lookupA_insertA_self _ _ _, ?_⟩
        intro k hk
        exact lookupA_insertA_ne _ _ hk

/-- Concrete room and engine used to instantiate the claim theorems. -/
def demoP : Player := ⟨"pa", 1, 11, "Alice", PlayerType.Participant, PlayerMode.Awake⟩

def demoO : Player := ⟨"po", 2, 12, "Olga", PlayerType.Observer, PlayerMode.Awake⟩

def demoRoom : PokerServer :=
  ⟨0, [("pa", demoP), ("po", demoO)], ⟨["1", "2"], [("1", "5")], false⟩⟩

def demoEngine : Engine := ⟨[(0, demoRoom)], 1⟩

/-- Witness for C6: the success path at a concrete participant, with the
overwrite of the prior value "5" under key "1" evaluated. -/
theorem c6_vote_spec_witness :
    (Vote demoEngine 0 "pa" "8").1 = none ∧
    (Vote demoEngine 0 "pa" "8").2.servers =
      insertA 0 ⟨demoRoom.id, demoRoom.players,
        ⟨demoRoom.currentSession.cardSet,
          insertA (votesKey demoP.publicId) "8" demoRoom.currentSession.votes,
          demoRoom.currentSession.isShown⟩⟩ demoEngine.servers ∧
    lookupA (votesKey demoP.publicId)
      (insertA (votesKey demoP.publicId) "8" demoRoom.currentSession.votes) = some "8" := by
  have h := ((c6_vote_spec demoEngine 0 "pa" "8").2 demoRoom rfl).2 demoP rfl
  have hsucc := h.2.2 (by decide) rfl
  exact ⟨hsucc.1, hsucc.2.1, hsucc.2.2.1⟩

/-! ## Claim C7 — failure atomicity -/

/-- Claim C7: every engine operation is atomic with respect to failure:
whenever it reports failure (an error, or `LeaveRoom`'s false flag) the
engine state — the entire room table — is returned exactly as it was. -/
theorem c7_failure_atomic {e : Engine} {op : Op} (h : opOk e op = false) :
    applyOp e op = e := by
  cases op with
  | createRoom s =>
    by_cases hc : cleanCards s = []
    · simp [applyOp, CreateRoom, hc]
    · simp [opOk, CreateRoom, hc, isOkE] at h
  | joinRoom id r n pid t =>
    cases hs : lookupA id e.servers with
    | none => simp [applyOp, JoinRoom, hs]
    | some server =>
      cases hr : findRecovery r server.players with
      | some p => simp [opOk, JoinRoom, hs, hr, isOkE] at h
      | none => simp [opOk, JoinRoom, hs, hr, isOkE] at h
  | vote sid pid v =>
    cases hs : lookupA sid e.servers with
    | none => simp [applyOp, Vote, hs]
    | some server =>
      cases hp : lookupA pid server.players with
      | none => simp [applyOp, Vote, hs, hp]
      | some player =>
        by_cases hobs : player.type = PlayerType.Observer
        · simp [applyOp, Vote, hs, hp, hobs]
        · by_cases hshown : server.currentSession.isShown = true
          · simp [applyOp, Vote, hs, hp, hobs, hshown]
          · simp [opOk, Vote, hs, hp, hobs, hshown] at h
  | unvote sid pid =>
    cases hs : lookupA sid e.servers with
    | none => simp [applyOp, UnVote, hs]
    | some server =>
      by_cases hshown : server.currentSession.isShown = true
      · simp [applyOp, UnVote, hs, hshown]
      · cases hp : lookupA pid server.players with
        | none => simp [applyOp, UnVote, hs, hshown, hp]
        | some player => simp [opOk, UnVote, hs, hshown, hp] at h
  | showVotes sid =>
    cases hs : lookupA sid e.servers with
    | none => simp [applyOp, ShowVotes, hs]
    | some server => simp [opOk, ShowVotes, hs] at h
  | clearVotes sid =>
    cases hs : lookupA sid e.servers with
    | none => simp [applyOp, ClearVotes, hs]
    | some server => simp [opOk, ClearVotes, hs] at h
  | kickPlayer sid kpid =>
    cases hs : lookupA sid e.servers with
    | none => simp [applyOp, KickPlayer, hs]
    | some server =>
      cases hf : findByPublicId kpid server.players with
      | none => simp [applyOp, KickPlayer, hs, hf]
      | some entry => simp [opOk, KickPlayer, hs, hf, isOkE] at h
  | leaveRoom sid pid =>
    cases hs : lookupA sid e.servers with
    | none => simp [applyOp, LeaveRoom, hs]
    | some server =>
      cases hp : lookupA pid server.players with
      | none => simp [applyOp, LeaveRoom, hs, hp]
      | some player => simp [opOk, LeaveRoom, hs, hp] at h

/-- Witness for C7: a vote against an absent room fails and leaves the
engine untouched. -/
theorem c7_failure_atomic_witness :
    opOk emptyEngine (Op.vote 0 "x" "1") = false ∧
    applyOp emptyEngine (Op.vote 0 "x" "1") = emptyEngine :=
  ⟨by decide, c7_failure_atomic (by decide)⟩

/-! ## Claim C8 — `CreateRoom` -/

/-- Claim C8: `createRoom` splits its input on commas, trims whitespace and
drops empty tokens (this is `cleanCards`, the direct translation of the
source's cleaning loop); it fails with the InvalidInput-kind error exactly
when the cleaned card set is empty, and on success allocates a fresh room
(the allocated id is unbound whenever existing ids obey the freshness
counter) with an empty player set and the session
⟨cleaned tokens in order, no votes, not shown⟩. -/
theorem c8_createRoom_spec (e : Engine) (s : List Char) :
    (cleanCards s = [] →
      CreateRoom e s = (Except.error EngError.emptyCardSet, e) ∧
      EngError.emptyCardSet.kind = ErrKind.InvalidInput) ∧
    (cleanCards s ≠ [] →
      (CreateRoom e s).1 = Except.ok e.nextId ∧
      (CreateRoom e s).2.servers =
        insertA e.nextId ⟨e.nextId, [], ⟨cleanCards s, [], false⟩⟩ e.servers ∧
      (CreateRoom e s).2.nextId = e.nextId + 1 ∧
      lookupA e.nextId (CreateRoom e s).2.servers =
        some ⟨e.nextId, [], ⟨cleanCards s, [], false⟩⟩ ∧
      ((∀ rs ∈ e.servers, rs.1 < e.nextId) → lookupA e.nextId e.servers = none)) := by
  refine ⟨?_, ?_⟩
  · intro hc
    exact ⟨by simp [CreateRoom, hc], rfl⟩
  · intro hc
    refine ⟨by simp [CreateRoom, hc], by simp [CreateRoom, hc], by simp [CreateRoom, hc],
      ?_, lookupA_eq_none_of_keys_lt⟩
    have h2 : (CreateRoom e s).2.servers =
        insertA e.nextId ⟨e.nextId, [], ⟨cleanCards s, [], false⟩⟩ e.servers := by
      simp [CreateRoom, hc]
    rw [h2]
    exact lookupA_insertA_self _ _ _

/-- Witness for C8: the spec's own example, `createRoom("1,2,3,5,8")`, with
the trimming exercised by a variant with spaces and an empty token; plus
the empty-input failure. -/
theorem c8_createRoom_spec_witness :
    cleanCards ("1,2,3,5,8".toList) = ["1", "2", "3", "5", "8"] ∧
    cleanCards (" 1 , 2 ,, 3 ".toList) = ["1", "2", "3"] ∧
    (CreateRoom emptyEngine ("1,2,3,5,8".toList)).1 = Except.ok 0 ∧
    (CreateRoom emptyEngine ("1,2,3,5,8".toList)).2.servers =
      insertA 0 ⟨0, [], ⟨["1", "2", "3", "5", "8"], [], false⟩⟩ emptyEngine.servers ∧
    CreateRoom emptyEngine (" , ,".toList) =
      (Except.error EngError.emptyCardSet, emptyEngine) := by
  have hok := (c8_createRoom_spec emptyEngine ("1,2,3,5,8".toList)).2 (by decide)
  have hfail := (c8_createRoom_spec emptyEngine (" , ,".toList)).1 (by decide)
  exact ⟨by decide, by decide, hok.1, hok.2.1, hfail.1⟩

/-! ## Claim C9 — `ClearVotes` -/

/-- Claim C9: `clearVotes` fails with the NotFound-kind error exactly when
the room is unknown (leaving the engine unchanged); for a known room it
succeeds and leaves the session with no votes and `isShown = false`
regardless of prior state; and running it twice gives exactly the state of
running it once. -/
theorem c9_clearVotes_spec (e : Engine) (serverId : Nat) :
    ((ClearVotes e serverId).1 = some EngError.roomNotFound ↔
      lookupA serverId e.servers = none) ∧
    EngError.roomNotFound.kind = ErrKind.NotFound ∧
    (lookupA serverId e.servers = none → (ClearVotes e serverId).2 = e) ∧
    (∀ server : PokerServer, lookupA serverId e.servers = some server →
      (ClearVotes e serverId).1 = none ∧
      lookupA serverId (ClearVotes e serverId).2.servers =
        some ⟨server.id, server.players, ⟨server.currentSession.cardSet, [], false⟩⟩) ∧
    applyOp (applyOp e (Op.clearVotes serverId)) (Op.clearVotes serverId) =
      applyOp e (Op.clearVotes serverId) := by
  refine ⟨?_, rfl, ?_, ?_, ?_⟩
  · cases hs : lookupA serverId e.servers with
    | none => simp [ClearVotes, hs]
    | some server => simp [ClearVotes, hs]
  · intro hs
    simp [ClearVotes, hs]
  · intro server hs
    refine ⟨by simp [ClearVotes, hs], ?_⟩
    have h2 : (ClearVotes e serverId).2.servers =
        insertA serverId ⟨server.id, server.players,
          ⟨server.currentSession.cardSet, [], false⟩⟩ e.servers := by
      simp [ClearVotes, hs]
    rw [h2]
    exact lookupA_insertA_self _ _ _
  · cases hs : lookupA serverId e.servers with
    | none => simp [applyOp, ClearVotes, hs]
    | some server =>
      simp only [applyOp, ClearVotes, hs, lookupA_insertA_self]
      rw [insertA_insertA]

/-- Witness for C9: clearing a room that is shown and has a vote recorded
yields the empty, unshown session; the room-not-found iff is exercised on
the empty engine. -/
theorem c9_clearVotes_spec_witness :
    (ClearVotes ⟨[(0, ⟨0, [("pa", demoP)], ⟨["1"], [("1", "5")], true⟩⟩)], 1⟩ 0).1 = none ∧
    lookupA 0 (ClearVotes ⟨[(0, ⟨0, [("pa", demoP)], ⟨["1"], [("1", "5")], true⟩⟩)], 1⟩ 0).2.servers =
      some ⟨0, [("pa", demoP)], ⟨["1"], [], false⟩⟩ ∧
    (ClearVotes emptyEngine 0).1 = some EngError.roomNotFound := by
  have h := ((c9_clearVotes_spec ⟨[(0, ⟨0, [("pa", demoP)], ⟨["1"], [("1", "5")], true⟩⟩)], 1⟩ 0).2.2.2.1
    ⟨0, [("pa", demoP)], ⟨["1"], [("1", "5")], true⟩⟩ rfl)
  have h2 := (c9_clearVotes_spec emptyEngine 0).1.mpr rfl
  exact ⟨h.1, h.2, h2⟩

/-! ## Claim C1 — publicId allocation -/

/-- Engine state after: create room 0, A joins (publicId 1), A is kicked. -/
def c1Engine : Engine :=
  runOps emptyEngine
    [Op.createRoom ['1'], Op.joinRoom 0 1 "A" "pa" PlayerType.Participant,
      Op.kickPlayer 0 1]

/-- Claim C1 counterexample: the first joiner of room 0 is allocated
publicId 1; after that player is kicked, a later join by a different player
(different recoveryId) is allocated the same publicId 1.  Allocation is
therefore neither strictly increasing over the room's lifetime nor free of
reassignment to a different, later player. -/
theorem c1_publicId_reused :
    (JoinRoom (runOps emptyEngine [Op.createRoom ['1']]) 0 1 "A" "pa"
        PlayerType.Participant).1 =
      Except.ok ⟨"pa", 1, 1, "A", PlayerType.Participant, PlayerMode.Awake⟩ ∧
    (JoinRoom c1Engine 0 2 "B" "pb" PlayerType.Participant).1 =
      Except.ok ⟨"pb", 1, 2, "B", PlayerType.Participant, PlayerMode.Awake⟩ :=
  ⟨rfl, rfl⟩

/-- Claim C1 (amended): when `JoinRoom` allocates a publicId (room known,
no recoveryId match) the allocated id — one more than the maximum publicId
present — is strictly greater than the publicId of every player currently
in the room.  So allocation never collides with a present player, and is
strictly increasing as long as every previously allocated id is still held
by a present player; once the holder of the maximum departs, the source
recomputes the maximum over the remaining players and the id can be reused
(as the counterexample shows). -/
theorem c1_alloc_above_present {e : Engine} {id recoveryId : Nat}
    {playerName privateId : String} {pType : PlayerType} {server : PokerServer}
    (hs : lookupA id e.servers = some server)
    (hr : findRecovery recoveryId server.players = none) :
    ∃ q : Player,
      (JoinRoom e id recoveryId playerName privateId pType).1 = Except.ok q ∧
      q.publicId = allocPublicId server.players ∧
      ∀ kp ∈ server.players, kp.2.publicId < q.publicId := by
  refine ⟨⟨privateId, allocPublicId server.players, recoveryId, playerName, pType,
    PlayerMode.Awake⟩, ?_, rfl, ?_⟩
  · simp [JoinRoom, hs, hr]
  · intro kp hkp
    exact allocPublicId_gt hkp

/-- Witness for the amended C1: joining the demo room (present publicIds 1
and 2) allocates publicId 3, strictly above both. -/
theorem c1_alloc_above_present_witness :
    ∃ q : Player,
      (JoinRoom demoEngine 0 99 "Carol" "pc" PlayerType.Participant).1 = Except.ok q ∧
      q.publicId = allocPublicId demoRoom.players ∧
      ∀ kp ∈ demoRoom.players, kp.2.publicId < q.publicId :=
  c1_alloc_above_present (by decide) (by decide)

/-! ## Claim C2 — reconnect by recoveryId -/

/-- The in-place update `JoinRoom` applies to a recovering player record:
new private id, name and type, `mode = Awake`; every other field kept. -/
def reconnectUpdate (p : Player) (privateId playerName : String) (pType : PlayerType) :
    Player :=
  { p with id := privateId, mode := PlayerMode.Awake, name := playerName, type := pType }

/-- Claim C2: when some player of the room holds the supplied recoveryId,
`JoinRoom` is a reconnect: it returns that player updated in place —
`privateId`, `name`, `type` replaced, `mode = Awake` — reinserted under the
new private id with the old private-id binding removed, while `publicId`,
`recoveryId` and the whole session (hence any vote under that publicId)
are left untouched; and (under the reachable-state facts that keys match
the records' ids and the recoveryId is held by only that player) no second
player with that recoveryId exists afterwards. -/
theorem c2_joinRoom_reconnect {e : Engine} {id recoveryId : Nat}
    {playerName privateId : String} {pType : PlayerType} {server : PokerServer}
    {p : Player} (hs : lookupA id e.servers = some server)
    (hr : findRecovery recoveryId server.players = some p) :
    ∃ p' : Player,
      (JoinRoom e id recoveryId playerName privateId pType).1 = Except.ok p' ∧
      p' = reconnectUpdate p privateId playerName pType ∧
      p'.publicId = p.publicId ∧
      p'.recoveryId = p.recoveryId ∧
      p.recoveryId = recoveryId ∧
      (JoinRoom e id recoveryId playerName privateId pType).2.servers =
        insertA id ⟨server.id, insertA privateId p' (eraseA p.id server.players),
          server.currentSession⟩ e.servers ∧
      ((∀ kp ∈ server.players, kp.2.id = kp.1) →
        (∀ kp ∈ server.players, kp.2.recoveryId = recoveryId → kp.2 = p) →
        ∀ kp ∈ insertA privateId p' (eraseA p.id server.players),
          kp.2.recoveryId = recoveryId → kp.2 = p') := by
  refine ⟨reconnectUpdate p privateId playerName pType, ?_, rfl, rfl, rfl,
    (findRecovery_mem hr).1, ?_, ?_⟩
  · simp [JoinRoom, hs, hr, reconnectUpdate]
  · simp [JoinRoom, hs, hr, reconnectUpdate]
  · intro hidkey huniq kp hkp hrec
    rcases mem_insertA.mp hkp with h1 | ⟨h2, _⟩
    · rw [h1]
    · obtain ⟨h2m, h2ne⟩ := mem_eraseA.mp h2
      have heqp := huniq kp h2m hrec
      have hkey := hidkey kp h2m
      rw [heqp] at hkey
      exact absurd hkey.symm h2ne

/-- Witness for C2: Alice (publicId 1, recoveryId 11, a recorded vote under
key "1") reconnects from a new socket as an Observer with a new name; her
publicId, recoveryId and the session are preserved. -/
theorem c2_joinRoom_reconnect_witness :
    ∃ p' : Player,
      (JoinRoom demoEngine 0 11 "Al" "pa2" PlayerType.Observer).1 = Except.ok p' ∧
      p' = reconnectUpdate demoP "pa2" "Al" PlayerType.Observer ∧
      p'.publicId = demoP.publicId ∧
      p'.recoveryId = demoP.recoveryId ∧
      demoP.recoveryId = 11 ∧
      (JoinRoom demoEngine 0 11 "Al" "pa2" PlayerType.Observer).2.servers =
        insertA 0 ⟨demoRoom.id, insertA "pa2" p' (eraseA demoP.id demoRoom.players),
          demoRoom.currentSession⟩ demoEngine.servers ∧
      ((∀ kp ∈ demoRoom.players, kp.2.id = kp.1) →
        (∀ kp ∈ demoRoom.players, kp.2.recoveryId = 11 → kp.2 = demoP) →
        ∀ kp ∈ insertA "pa2" p' (eraseA demoP.id demoRoom.players),
          kp.2.recoveryId = 11 → kp.2 = p') :=
  c2_joinRoom_reconnect (by decide) (by decide)

/-! ## Claim C3 — Observers and votes -/

/-- Trace: A joins room 0 as a Participant (publicId 1), votes "3", then
reconnects with the same recoveryId as an Observer. -/
def c3Trace : List Op :=
  [Op.createRoom ['1'], Op.joinRoom 0 5 "A" "pa" PlayerType.Participant,
    Op.vote 0 "pa" "3", Op.joinRoom 0 5 "A" "pa2" PlayerType.Observer]

/-- Claim C3 counterexample: a reachable state in which the room's only
player has type Observer (publicId 1) and yet the votes map holds an entry
under that publicId — the vote cast while the player was a Participant is
preserved by the type-switching reconnect. -/
theorem c3_observer_holds_vote :
    (roomOf (runOps emptyEngine c3Trace) 0).map (fun srv => lookupA "pa2" srv.players) =
      some (some ⟨"pa2", 1, 5, "A", PlayerType.Observer, PlayerMode.Awake⟩) ∧
    (roomOf (runOps emptyEngine c3Trace) 0).map
      (fun srv => lookupA (votesKey 1) srv.currentSession.votes) = some (some "3") := by
  exact ⟨rfl, rfl⟩

/-- Claim C3 (amended): the `vote` operation itself never records a vote
for an Observer — a vote call by a player whose type is Observer is
rejected with the Forbidden-kind error and leaves the engine entirely
unchanged.  (The reachable-state form of the claim fails: a reconnect may
switch a voted Participant to Observer while preserving the vote, as the
counterexample shows.) -/
theorem c3_vote_observer_rejected {e : Engine} {serverId : Nat}
    {privateId voteValue : String} {server : PokerServer} {player : Player}
    (hs : lookupA serverId e.servers = some server)
    (hp : lookupA privateId server.players = some player)
    (hobs : player.type = PlayerType.Observer) :
    Vote e serverId privateId voteValue = (some EngError.observersCannotVote, e) ∧
    EngError.observersCannotVote.kind = ErrKind.Forbidden := by
  exact ⟨by simp [Vote, hs, hp, hobs], rfl⟩

/-- Witness for the amended C3: Olga the Observer cannot vote in the demo
room; the engine is unchanged. -/
theorem c3_vote_observer_rejected_witness :
    Vote demoEngine 0 "po" "5" = (some EngError.observersCannotVote, demoEngine) ∧
    EngError.observersCannotVote.kind = ErrKind.Forbidden :=
  @c3_vote_observer_rejected demoEngine 0 "po" "5" demoRoom demoO rfl rfl (by decide)

/-! ## Claim C4 — `UnVote` on an unknown player -/

def c4Engine : Engine := runOps emptyEngine [Op.createRoom ['1']]

/-- Claim C4 counterexample: in a known room whose session is not shown,
`UnVote` with a private id matching no player DOES report an error
("player not found") — it is not the silent no-op the claim describes —
though the engine state is indeed left unchanged. -/
theorem c4_unvote_unknown_reports_error :
    (roomOf c4Engine 0).map (fun srv => srv.currentSession.isShown) = some false ∧
    UnVote c4Engine 0 "nobody" = (some EngError.playerNotFound, c4Engine) := by
  exact ⟨rfl, rfl⟩

/-- Claim C4 (amended): for a known room whose session is not shown,
`UnVote` with an unknown private id fails with the NotFound-kind
"player not found" error and leaves the engine unchanged (a state no-op,
but one that does report an error); with a known player it succeeds and
removes `votes[publicId]`, present or not. -/
theorem c4_unvote_spec {e : Engine} {serverId : Nat} {privateId : String}
    {server : PokerServer} (hs : lookupA serverId e.servers = some server)
    (hshown : server.currentSession.isShown = false) :
    (lookupA privateId server.players = none →
      UnVote e serverId privateId = (some EngError.playerNotFound, e) ∧
      EngError.playerNotFound.kind = ErrKind.NotFound) ∧
    (∀ player : Player, lookupA privateId server.players = some player →
      (UnVote e serverId privateId).1 = none ∧
      (UnVote e serverId privateId).2.servers =
        insertA serverId ⟨server.id, server.players,
          ⟨server.currentSession.cardSet,
            eraseA (votesKey player.publicId) server.currentSession.votes,
            server.currentSession.isShown⟩⟩ e.servers ∧
      lookupA (votesKey player.publicId)
        (eraseA (votesKey player.publicId) server.currentSession.votes) = none) := by
  refine ⟨?_, ?_⟩
  · intro hp
    exact ⟨by simp [UnVote, hs, hshown, hp], rfl⟩
  · intro player hp
    exact ⟨by simp [UnVote, hs, hshown, hp], by simp [UnVote, hs, hshown, hp],
      lookupA_eraseA_self _ _⟩

/-- Witness for the amended C4: in the demo room (not shown) an unknown
private id makes `UnVote` fail with "player not found"; Alice's `UnVote`
succeeds and removes her vote under key "1". -/
theorem c4_unvote_spec_witness :
    (UnVote demoEngine 0 "ghost" = (some EngError.playerNotFound, demoEngine) ∧
      EngError.playerNotFound.kind = ErrKind.NotFound) ∧
    ((UnVote demoEngine 0 "pa").1 = none ∧
      lookupA (votesKey demoP.publicId)
        (eraseA (votesKey demoP.publicId) demoRoom.currentSession.votes) = none) := by
  have h := @c4_unvote_spec demoEngine 0 "ghost" demoRoom rfl rfl
  have h2 := @c4_unvote_spec demoEngine 0 "pa" demoRoom rfl rfl
  have hu := h.1 (by decide)
  have hk := h2.2 demoP rfl
  exact ⟨⟨hu.1, hu.2⟩, hk.1, hk.2.2⟩

/-! ## Claim C5 — immutability after reveal -/

def c5Engine : Engine :=
  runOps emptyEngine
    [Op.createRoom ['1'], Op.joinRoom 0 7 "O" "po" PlayerType.Observer, Op.showVotes 0]

/-- Claim C5 counterexample: in a room with `isShown = true`, a vote call
by an Observer is rejected with the Forbidden-kind error, not the Locked
one the claim names — the Observer check precedes the reveal check in the
source.  (Votes are still unchanged.) -/
theorem c5_vote_rejected_but_not_locked :
    (roomOf c5Engine 0).map (fun srv => srv.currentSession.isShown) = some true ∧
    (Vote c5Engine 0 "po" "5").1 = some EngError.observersCannotVote ∧
    (Vote c5Engine 0 "po" "5").2 = c5Engine ∧
    EngError.observersCannotVote.kind ≠ ErrKind.Locked := by
  refine ⟨rfl, rfl, rfl, ?_⟩
  intro h
  cases h

/-- Claim C5 (amended): once `isShown = true`, every `vote` and every
`unvote` call on the room leaves the engine — hence `session.votes` —
unchanged and returns an error: for `unvote` always the Locked-kind error,
and for `vote` the Locked-kind error whenever the caller is a known
non-Observer (an unknown player or an Observer is rejected by the earlier
NotFound / Forbidden checks instead); `clearVotes` ends the locked phase,
returning the session to `isShown = false` with votes emptied. -/
theorem c5_shown_votes_immutable {e : Engine} {serverId : Nat}
    {server : PokerServer} (hs : lookupA serverId e.servers = some server)
    (hshown : server.currentSession.isShown = true) :
    (∀ privateId voteValue : String,
      (Vote e serverId privateId voteValue).2 = e ∧
      (Vote e serverId privateId voteValue).1 ≠ none ∧
      (∀ player : Player, lookupA privateId server.players = some player →
        player.type ≠ PlayerType.Observer →
        (Vote e serverId privateId voteValue).1 = some EngError.voteRevealLocked)) ∧
    (∀ privateId : String,
      UnVote e serverId privateId = (some EngError.unvoteRevealLocked, e)) ∧
    EngError.voteRevealLocked.kind = ErrKind.Locked ∧
    EngError.unvoteRevealLocked.kind = ErrKind.Locked ∧
    (ClearVotes e serverId).1 = none ∧
    lookupA serverId (ClearVotes e serverId).2.servers =
      some ⟨server.id, server.players, ⟨server.currentSession.cardSet, [], false⟩⟩ := by
  refine ⟨?_, ?_, rfl, rfl, by simp [ClearVotes, hs], ?_⟩
  · intro privateId voteValue
    cases hp : lookupA privateId server.players with
    | none =>
      refine ⟨by simp [Vote, hs, hp], by simp [Vote, hs, hp], ?_⟩
      intro player hp2
      simp at hp2
    | some player =>
      by_cases hobs : player.type = PlayerType.Observer
      · refine ⟨by simp [Vote, hs, hp, hobs], by simp [Vote, hs, hp, hobs], ?_⟩
        intro player2 hp2 hnotobs
        injection hp2 with hp2
        rw [← hp2] at hnotobs
        exact absurd hobs hnotobs
      · exact ⟨by simp [Vote, hs, hp, hobs, hshown], by simp [Vote, hs, hp, hobs, hshown],
          fun player2 hp2 hnotobs => by simp [Vote, hs, hp, hobs, hshown]⟩
  · intro privateId
    simp [UnVote, hs, hshown]
  · have h2 : (ClearVotes e serverId).2.servers =
        insertA serverId ⟨server.id, server.players,
          ⟨server.currentSession.cardSet, [], false⟩⟩ e.servers := by
      simp [ClearVotes, hs]
    rw [h2]
    exact lookupA_insertA_self _ _ _

/-- A shown variant of the demo room, used to instantiate C5. -/
def demoRoomShown : PokerServer :=
  ⟨0, [("pa", demoP), ("po", demoO)], ⟨["1", "2"], [("1", "5")], true⟩⟩

def demoEngineShown : Engine := ⟨[(0, demoRoomShown)], 1⟩

/-- Witness for the amended C5: with the demo room revealed, Alice's vote
call is rejected with the Locked-kind error and the engine is unchanged;
her unvote likewise; clearing resets the session. -/
theorem c5_shown_votes_immutable_witness :
    ((Vote demoEngineShown 0 "pa" "8").2 = demoEngineShown ∧
      (Vote demoEngineShown 0 "pa" "8").1 = some EngError.voteRevealLocked) ∧
    UnVote demoEngineShown 0 "pa" = (some EngError.unvoteRevealLocked, demoEngineShown) ∧
    (ClearVotes demoEngineShown 0).1 = none ∧
    lookupA 0 (ClearVotes demoEngineShown 0).2.servers =
      some ⟨demoRoomShown.id, demoRoomShown.players,
        ⟨demoRoomShown.currentSession.cardSet, [], false⟩⟩ := by
  have h := @c5_shown_votes_immutable demoEngineShown 0 demoRoomShown rfl rfl
  have hv := h.1 "pa" "8"
  exact ⟨⟨hv.1, hv.2.2 demoP rfl (by decide)⟩, h.2.1 "pa", h.2.2.2.2⟩

/-! ## Claim C10 — no dangling votes -/

/-- Trace: A joins room 0 with private id "pa" and votes; B then joins
supplying the same private id "pa" (with a different recoveryId). -/
def c10Trace : List Op :=
  [Op.createRoom ['1'], Op.joinRoom 0 1 "A" "pa" PlayerType.Participant,
    Op.vote 0 "pa" "3", Op.joinRoom 0 2 "B" "pa" PlayerType.Participant]

/-- Claim C10 counterexample: after B joins reusing A's live private id,
A's record is silently replaced, yet A's vote under key "1" survives while
no present player has publicId 1 — the vote entry dangles. -/
theorem c10_vote_dangles :
    (roomOf (runOps emptyEngine c10Trace) 0).map
      (fun srv => lookupA "1" srv.currentSession.votes) = some (some "3") ∧
    (roomOf (runOps emptyEngine c10Trace) 0).map
      (fun srv => srv.players.all (fun kp => decide (votesKey kp.2.publicId ≠ "1"))) =
      some true := by
  exact ⟨rfl, rfl⟩

/-- Claim C10 (amended): over every trace in which each join supplies a
private id not already bound in the target room (the discipline the
boundary layer guarantees — one fresh private id per live socket), every
key of every room's votes map is the decimal publicId of a player
currently present in that room: kicks and leaves delete the vote entry
together with the player, and vote only inserts entries for present
players.  (Without the freshness discipline the claim fails: a join
reusing a live private id silently replaces that player and orphans their
vote, as the counterexample shows.) -/
theorem c10_votes_backed {e : Engine} {ops : List Op} (he : engineWF e)
    (hsafe : safeTrace e ops = true) {serverId : Nat} {srv : PokerServer}
    (hs : roomOf (runOps e ops) serverId = some srv) :
    ∀ kv ∈ srv.currentSession.votes, ∃ kp ∈ srv.players,
      kv.1 = votesKey kp.2.publicId := by
  have hwf := engineWF_runOps he hsafe
  rw [roomOf] at hs
  exact (hwf _ (lookupA_mem hs)).2

/-- A disciplined trace: create, join A, vote, show, clear, join B with a
fresh private id, B votes, kick A. -/
def c10SafeTrace : List Op :=
  [Op.createRoom ['1'], Op.joinRoom 0 1 "A" "pa" PlayerType.Participant,
    Op.vote 0 "pa" "3", Op.showVotes 0, Op.clearVotes 0,
    Op.joinRoom 0 2 "B" "pb" PlayerType.Participant, Op.vote 0 "pb" "5",
    Op.kickPlayer 0 1]

/-- Witness for the amended C10: along the disciplined trace the final
room holds exactly B (publicId 2) and the single vote key "2", which is
backed by B. -/
theorem c10_votes_backed_witness :
    safeTrace emptyEngine c10SafeTrace = true ∧
    roomOf (runOps emptyEngine c10SafeTrace) 0 =
      some ⟨0, [("pb", ⟨"pb", 2, 2, "B", PlayerType.Participant, PlayerMode.Awake⟩)],
        ⟨["1"], [("2", "5")], false⟩⟩ ∧
    ∀ kv ∈ [(("2" : String), ("5" : String))],
      ∃ kp ∈ [(("pb" : String),
        (⟨"pb", 2, 2, "B", PlayerType.Participant, PlayerMode.Awake⟩ : Player))],
        kv.1 = votesKey kp.2.publicId := by
  refine ⟨by decide, rfl, ?_⟩
  exact @c10_votes_backed emptyEngine c10SafeTrace engineWF_empty (by decide) 0
    ⟨0, [("pb", ⟨"pb", 2, 2, "B", PlayerType.Participant, PlayerMode.Awake⟩)],
      ⟨["1"], [("2", "5")], false⟩⟩ rfl

end PlanningPoker
